import Mathlib

/-!
Shallow embedding of `fync.go` (package `fync`), the Minecraft-mod sync
engine.  The Go program reconciles a remote list of mod files against a
local mods directory: per remote artifact it writes, replaces-with-backup,
or skips; afterwards it moves orphaned local mods into a backup directory.

Modelling choices, all driven by the source:
* Goroutine tasks run concurrently in Go but, with remote names unique per
  run (the spec's stated precondition), each task reads and deletes only
  its own inventory key under the mutex, so tasks are independent and a
  sequential schedule in dispatch order is a faithful schedule.  Dispatched
  goroutines are never cancelled, so all tasks run to completion even when
  the collector stops early; the model therefore runs every task and feeds
  the result list to a separate collector (`firstError`), mirroring the
  buffered-channel fan-in of lines 193-205 and 224-235.
* Filesystem directories are association lists of named entries; I/O
  failures are injected through an `Env` record (which paths `os.Create`
  or `os.Rename` fail on, whether the `MkdirAll`/`ReadDir` calls succeed).
* Go errors are modelled by `GoError`: `os.Create` yields a path error
  carrying the destination path, `os.Rename` a link error carrying both
  paths, and `ServerFile.Stat`/`WriteTo` yield the remote side's own error,
  exactly as the stdlib behaves; `write`/`backup` propagate them unwrapped
  as the source does.
* The run also produces an event trace (remote listing, directory
  creation, directory scan, per-artifact stat/write/backup/close) so that
  ordering and occurrence claims can be stated.
-/

namespace Fync

/-- The resolved mods directory path; the core treats it as an opaque string. -/
def modsDir : String := "mods"

/-- The resolved backup directory path (`modsDir/backup`, fync.go line 41). -/
def backupDir : String := modsDir ++ "/backup"

/-- The `filepath.Join` of a directory and a file name. -/
def joinPath (dir name : String) : String := dir ++ "/" ++ name

/-- A Go error value as the program can observe it. -/
inductive GoError where
  /-- Error from `os.Create`, a `*PathError` carrying the operation and the path. -/
  | pathError (op path : String)
  /-- Error from `os.Rename`, a `*LinkError` carrying both paths. -/
  | linkError (op oldPath newPath : String)
  /-- Error produced by the remote side (`ServerFile.Stat` or `WriteTo`). -/
  | remote (msg : String)
  /-- The `errors.New("no server mods to sync")` value (line 105). -/
  | noServerMods
  /-- Failure of `os.MkdirAll` for a directory path. -/
  | mkdirFailed (path : String)
  /-- Failure of `ioutil.ReadDir` on the mods directory. -/
  | readDirFailed (path : String)
  deriving Repr, DecidableEq

/-- Whether an error value carries (mentions) a given path. -/
def GoError.mentionsPath : GoError → String → Bool
  | .pathError _ p, q => p = q
  | .linkError _ a b, q => a = q || b = q
  | .mkdirFailed p, q => p = q
  | .readDirFailed p, q => p = q
  | .remote _, _ => false
  | .noServerMods, _ => false

/-- A remote mod file (`ServerFile`): its stat metadata plus injected
failure behaviour of its `Stat` and `WriteTo` methods. -/
structure ServerFile where
  name : String
  size : Int
  /-- When `some msg`, every `Stat()` call fails with that remote error. -/
  statErr : Option String := none
  /-- When `some msg`, `WriteTo` fails with that remote error after the
  destination file has been created. -/
  writeErr : Option String := none
  deriving Repr, DecidableEq

/-- An entry of a local directory listing (`os.FileInfo`). -/
structure FileEntry where
  name : String
  size : Int
  isDir : Bool := false
  deriving Repr, DecidableEq

/-- Local filesystem state visible to the program: the contents of the mods
directory and of the backup directory, and whether the backup directory
exists (renames into a missing directory fail). -/
structure FS where
  mods : List FileEntry
  backup : List FileEntry
  backupDirExists : Bool := false
  deriving Repr, DecidableEq

/-- Injected environment faults: which `os.Create` destinations fail, which
`os.Rename` sources fail, whether the two `MkdirAll` calls and the
`ReadDir` call succeed, and the process-wide path-resolution error of the
`init` function (`dirErr`, line 16). -/
structure Env where
  dirErr : Option GoError := none
  mkdirModsOk : Bool := true
  mkdirBackupOk : Bool := true
  readDirOk : Bool := true
  createFails : List String := []
  renameFails : List String := []
  deriving Repr, DecidableEq

/-- The `SyncOptions` record (lines 74-89); the three callbacks are
modelled by whether they are bound (`nil` or not). -/
structure SyncOptions where
  onWrite : Bool := false
  onBackup : Bool := false
  onProgress : Bool := false
  keepExisting : Bool := false
  force : Bool := false
  deriving Repr, DecidableEq

/-- Observable events of a run, in program order. -/
inductive Event where
  /-- The `s.Mods()` remote listing call (line 98). -/
  | remoteList
  /-- The `os.MkdirAll(modsDir, ...)` call (line 109). -/
  | mkdirMods
  /-- The `ioutil.ReadDir(modsDir)` inventory scan (line 116). -/
  | readDir
  /-- A task's `mod.Stat()` call (line 141). -/
  | statArt (name : String)
  /-- An invocation of the `write` primitive for an artifact (lines 152/163/175). -/
  | writeArt (name : String)
  /-- An invocation of the `backup` primitive for an artifact (lines 169/220). -/
  | backupArt (name : String)
  /-- The deferred `mod.Close()` of a task (line 139). -/
  | closeArt (name : String)
  /-- The `os.MkdirAll(backupDir, ...)` call (line 209). -/
  | mkdirBackup
  deriving Repr, DecidableEq

/-- Whether an event is one produced inside a per-artifact task (stat,
write, backup or close), as opposed to the orchestrator's own calls. -/
def Event.isTaskEvent : Event → Bool
  | .statArt _ => true
  | .writeArt _ => true
  | .backupArt _ => true
  | .closeArt _ => true
  | _ => false

/-- Whether an event is a task's deferred Close. -/
def Event.isClose : Event → Bool
  | .closeArt _ => true
  | _ => false

/-- Lookup of a directory entry by name. -/
def findFile : List FileEntry → String → Option FileEntry
  | [], _ => none
  | e :: rest, n => if e.name = n then some e else findFile rest n

/-- Removal of a directory entry by name (the effect of renaming it away). -/
def removeFile : List FileEntry → String → List FileEntry
  | [], _ => []
  | e :: rest, n => if e.name = n then removeFile rest n else e :: removeFile rest n

/-- Creation or truncation of a file of a given size in a directory
listing (the effect of `os.Create` followed by a full copy). -/
def setFile (l : List FileEntry) (name : String) (size : Int) : List FileEntry :=
  match l with
  | [] => [⟨name, size, false⟩]
  | e :: rest => if e.name = name then ⟨name, size, false⟩ :: rest else e :: setFile rest name size

/-- Lookup in the local inventory map (`localMods map[string]int64`). -/
def lookupSize : List (String × Int) → String → Option Int
  | [], _ => none
  | (n, s) :: rest, k => if n = k then some s else lookupSize rest k

/-- The `delete(localMods, name)` operation on the inventory map. -/
def eraseKey : List (String × Int) → String → List (String × Int)
  | [], _ => []
  | (n, s) :: rest, k => if n = k then eraseKey rest k else (n, s) :: eraseKey rest k

/-- The check `strings.HasSuffix(name, ".jar")` of line 123, expressed on
the character list of the name (equivalent for the valid strings Go
produces). -/
def hasJarSuffix (name : String) : Bool :=
  (".jar".data).isSuffixOf name.data

/-- The local-inventory scan (lines 121-126): non-directory entries whose
name ends in `.jar`, mapped to their sizes. -/
def scanInventory (entries : List FileEntry) : List (String × Int) :=
  (entries.filter (fun e => !e.isDir && hasJarSuffix e.name)).map (fun e => (e.name, e.size))

/-- The `write` primitive (lines 255-275): when `OnWrite` is bound the
source calls `Stat` again and propagates its error; then `os.Create`
(which may fail with a path error carrying the destination) and
`WriteTo` (whose failure is the remote's own error).  A copy that fails
after creation leaves a truncated destination file, modelled as size 0.
The error is returned unwrapped, exactly as the source does. -/
def write (env : Env) (mod : ServerFile) (name : String) (o : SyncOptions) (fs : FS) :
    Option GoError × FS :=
  let dest := joinPath modsDir name
  match (if o.onWrite then mod.statErr else none) with
  | some e => (some (.remote e), fs)
  | none =>
    if dest ∈ env.createFails then (some (.pathError "create" dest), fs)
    else
      match mod.writeErr with
      | some e => (some (.remote e), { fs with mods := setFile fs.mods name 0 })
      | none => (none, { fs with mods := setFile fs.mods name mod.size })

/-- The `backup` primitive (lines 241-253): `os.Rename(modsDir/name,
backupDir/name)`, whose failure (injected, missing backup directory, or
missing source) is a link error carrying both paths, returned unwrapped. -/
def backup (env : Env) (name : String) (fs : FS) : Option GoError × FS :=
  let src := joinPath modsDir name
  let dst := joinPath backupDir name
  if src ∈ env.renameFails then (some (.linkError "rename" src dst), fs)
  else if !fs.backupDirExists then (some (.linkError "rename" src dst), fs)
  else
    match findFile fs.mods name with
    | none => (some (.linkError "rename" src dst), fs)
    | some e =>
      (none, { fs with mods := removeFile fs.mods name,
                       backup := setFile fs.backup name e.size })

/-- Result of one transfer task: the value it sends on the error channel,
the filesystem and inventory it leaves behind, and its event trace. -/
structure TaskOut where
  err : Option GoError
  fs : FS
  inv : List (String × Int)
  events : List Event
  deriving Repr, DecidableEq

/-- Body of the per-artifact goroutine (lines 141-189), without the
deferred `Close`: stat, decide by `force` / inventory lookup / size
comparison, apply write/backup, then remove the name from the inventory
unless `keepExisting`. -/
def taskBody (env : Env) (o : SyncOptions) (mod : ServerFile) (fs : FS)
    (inv : List (String × Int)) : TaskOut :=
  match mod.statErr with
  | some e => ⟨some (.remote e), fs, inv, [.statArt mod.name]⟩
  | none =>
    let name := mod.name
    let done : FS → List Event → TaskOut := fun fs' evs =>
      ⟨none, fs', if !o.keepExisting then eraseKey inv name else inv, evs⟩
    if o.force then
      match write env mod name o fs with
      | (some e, fs') => ⟨some e, fs', inv, [.statArt name, .writeArt name]⟩
      | (none, fs') => done fs' [.statArt name, .writeArt name]
    else
      match lookupSize inv name with
      | none =>
        match write env mod name o fs with
        | (some e, fs') => ⟨some e, fs', inv, [.statArt name, .writeArt name]⟩
        | (none, fs') => done fs' [.statArt name, .writeArt name]
      | some size =>
        if size ≠ mod.size then
          match backup env name fs with
          | (some e, fs') => ⟨some e, fs', inv, [.statArt name, .backupArt name]⟩
          | (none, fs') =>
            match write env mod name o fs' with
            | (some e, fs'') =>
              ⟨some e, fs'', inv, [.statArt name, .backupArt name, .writeArt name]⟩
            | (none, fs'') => done fs'' [.statArt name, .backupArt name, .writeArt name]
        else done fs [.statArt name]

/-- One full transfer task (lines 138-190): the body followed by the
deferred `mod.Close()`, which runs on every path. -/
def syncTask (env : Env) (o : SyncOptions) (mod : ServerFile) (fs : FS)
    (inv : List (String × Int)) : TaskOut :=
  let t := taskBody env o mod fs inv
  { t with events := t.events ++ [.closeArt mod.name] }

/-- Accumulated output of a phase's tasks. -/
structure PhaseOut where
  results : List (Option GoError)
  fs : FS
  inv : List (String × Int)
  events : List Event
  deriving Repr, DecidableEq

/-- The write phase (lines 137-191): every dispatched task runs to
completion (goroutines are never cancelled); one result per task. -/
def runTasks (env : Env) (o : SyncOptions) (mods : List ServerFile) (fs : FS)
    (inv : List (String × Int)) : PhaseOut :=
  match mods with
  | [] => ⟨[], fs, inv, []⟩
  | m :: rest =>
    let t := syncTask env o m fs inv
    let p := runTasks env o rest t.fs t.inv
    ⟨t.err :: p.results, p.fs, p.inv, t.events ++ p.events⟩

/-- Accumulated output of the orphan-backup phase. -/
structure BackupOut where
  results : List (Option GoError)
  fs : FS
  events : List Event
  deriving Repr, DecidableEq

/-- The orphan-backup phase tasks (lines 217-222): one `backup` call per
orphan name. -/
def runBackups (env : Env) (names : List String) (fs : FS) : BackupOut :=
  match names with
  | [] => ⟨[], fs, []⟩
  | n :: rest =>
    let r := backup env n fs
    let b := runBackups env rest r.2
    ⟨r.1 :: b.results, b.fs, .backupArt n :: b.events⟩

/-- The result collector (lines 194-205 and 224-229): the first error
received is returned; once it arrives no further results are awaited. -/
def firstError : List (Option GoError) → Option GoError
  | [] => none
  | some e :: _ => some e
  | none :: rest => firstError rest

/-- Overall outcome of a `Sync` call: success, an error, or a runtime
panic (nil-pointer dereference). -/
inductive Outcome where
  | ok
  | err (e : GoError)
  | panicked
  deriving Repr, DecidableEq

/-- A finished run: outcome, final filesystem, event trace. -/
structure SyncResult where
  outcome : Outcome
  fs : FS
  events : List Event
  deriving Repr, DecidableEq

/-- The tail of `Sync` after the inventory is determined (lines 129-238):
write phase, collection, then the orphan phase.  The source discards the
error of `os.MkdirAll(backupDir, ...)` on line 209; the model does the
same (the call only flips `backupDirExists` when it succeeds). -/
def afterScan (env : Env) (fs : FS) (ev : List Event) (serverMods : List ServerFile)
    (o : SyncOptions) (inv : List (String × Int)) : SyncResult :=
  let p := runTasks env o serverMods fs inv
  let ev := ev ++ p.events
  match firstError p.results with
  | some e => ⟨.err e, p.fs, ev⟩
  | none =>
    if !o.keepExisting && p.inv.length ≠ 0 then
      let fs2 := if env.mkdirBackupOk then { p.fs with backupDirExists := true } else p.fs
      let ev := ev ++ [.mkdirBackup]
      let b := runBackups env (p.inv.map Prod.fst) fs2
      let ev := ev ++ b.events
      match firstError b.results with
      | some e => ⟨.err e, b.fs, ev⟩
      | none => ⟨.ok, b.fs, ev⟩
    else ⟨.ok, p.fs, ev⟩

/-- The `Sync` function (lines 92-239).  `serverMods` is the (successful)
result of the `s.Mods()` listing, recorded as a `remoteList` event; `o` is
the options pointer, `none` standing for `nil` — line 115 dereferences it,
so a nil pointer panics there. -/
def Sync (env : Env) (fs : FS) (serverMods : List ServerFile) (o : Option SyncOptions) :
    SyncResult :=
  match env.dirErr with
  | some e => ⟨.err e, fs, []⟩
  | none =>
    let ev := [Event.remoteList]
    if serverMods.length = 0 then ⟨.err .noServerMods, fs, ev⟩
    else if !env.mkdirModsOk then ⟨.err (.mkdirFailed modsDir), fs, ev ++ [.mkdirMods]⟩
    else
      let ev := ev ++ [.mkdirMods]
      match o with
      | none => ⟨.panicked, fs, ev⟩
      | some o =>
        if !(o.keepExisting && o.force) then
          if !env.readDirOk then ⟨.err (.readDirFailed modsDir), fs, ev ++ [.readDir]⟩
          else afterScan env fs (ev ++ [.readDir]) serverMods o (scanInventory fs.mods)
        else afterScan env fs ev serverMods o []

/-- The write phase exactly as `Sync` runs it: the tasks over the
inventory `Sync` determines (scanned unless `keepExisting && force`). -/
def writePhase (env : Env) (fs : FS) (serverMods : List ServerFile) (o : SyncOptions) :
    PhaseOut :=
  runTasks env o serverMods fs
    (if !(o.keepExisting && o.force) then scanInventory fs.mods else [])

/-- The orphan-backup phase exactly as `Sync` runs it after a successful
write phase: the result of the backup-store creation (line 209) is
discarded — it only flips the existence flag when it succeeds — then one
backup task runs per name left in the inventory. -/
def backupPhase (env : Env) (fs : FS) (serverMods : List ServerFile) (o : SyncOptions) :
    BackupOut :=
  runBackups env ((writePhase env fs serverMods o).inv.map Prod.fst)
    (if env.mkdirBackupOk then
      { (writePhase env fs serverMods o).fs with backupDirExists := true }
    else (writePhase env fs serverMods o).fs)

/-- The spec's per-artifact decision, written from the spec's own words
(section 3, "Decision"): `Overwrite` when forced, `WriteNew` when no local
artifact of that name exists, `ReplaceWithBackup` on a size mismatch,
`Skip` on a size match.  Used to compare the code's branch structure
against the spec. -/
inductive Decision where
  | writeNew
  | replaceWithBackup
  | overwrite
  | skip
  deriving Repr, DecidableEq

/-- Decision procedure as the spec describes it. -/
def decision (force : Bool) (inv : List (String × Int)) (name : String) (size : Int) :
    Decision :=
  if force then .overwrite
  else
    match lookupSize inv name with
    | none => .writeNew
    | some s => if s ≠ size then .replaceWithBackup else .skip

/-! ### Helper lemmas about the directory and inventory operations -/

theorem findFile_setFile_self (l : List FileEntry) (n : String) (s : Int) :
    findFile (setFile l n s) n = some ⟨n, s, false⟩ := by
  induction l with
  | nil => simp [setFile, findFile]
  | cons e rest ih =>
    by_cases h : e.name = n
    · simp [setFile, h, findFile]
    · simp [setFile, h, findFile, ih]

theorem findFile_setFile_ne (l : List FileEntry) (n : String) (s : Int) (k : String)
    (h : k ≠ n) : findFile (setFile l n s) k = findFile l k := by
  have hnk : n ≠ k := Ne.symm h
  induction l with
  | nil => simp [setFile, findFile, hnk]
  | cons e rest ih =>
    by_cases he : e.name = n
    · simp [setFile, he, findFile, hnk]
    · simp [setFile, he, findFile, ih]

theorem findFile_removeFile_self (l : List FileEntry) (n : String) :
    findFile (removeFile l n) n = none := by
  induction l with
  | nil => simp [removeFile, findFile]
  | cons e rest ih =>
    by_cases h : e.name = n
    · simp [removeFile, h, ih]
    · simp [removeFile, h, findFile, ih]

theorem findFile_removeFile_ne (l : List FileEntry) (n k : String) (h : k ≠ n) :
    findFile (removeFile l n) k = findFile l k := by
  have hnk : n ≠ k := Ne.symm h
  induction l with
  | nil => simp [removeFile]
  | cons e rest ih =>
    by_cases he : e.name = n
    · simp [removeFile, he, findFile, ih, hnk]
    · simp [removeFile, he, findFile, ih]

theorem findFile_none_removeFile (l : List FileEntry) (n k : String)
    (h : findFile l k = none) : findFile (removeFile l n) k = none := by
  by_cases hk : k = n
  · rw [hk]; exact findFile_removeFile_self l n
  · rw [findFile_removeFile_ne l n k hk]; exact h

theorem findFile_of_mem_nodup (l : List FileEntry) (e : FileEntry)
    (hnd : (l.map FileEntry.name).Nodup) (hm : e ∈ l) : findFile l e.name = some e := by
  induction l with
  | nil => cases hm
  | cons a rest ih =>
    rcases List.mem_cons.mp hm with h | h
    · simp [findFile, h]
    · have hnd' := hnd
      rw [List.map_cons, List.nodup_cons] at hnd'
      have hne : a.name ≠ e.name := by
        intro hh
        exact hnd'.1 (hh ▸ List.mem_map_of_mem FileEntry.name h)
      simp [findFile, hne, ih hnd'.2 h]

theorem mem_eraseKey (l : List (String × Int)) (n : String) (x : String × Int) :
    x ∈ eraseKey l n ↔ x ∈ l ∧ x.1 ≠ n := by
  induction l with
  | nil => simp [eraseKey]
  | cons p rest ih =>
    obtain ⟨a, b⟩ := p
    by_cases h : a = n
    · simp only [eraseKey, if_pos h, ih, List.mem_cons]
      constructor
      · rintro ⟨hm, hn⟩
        exact ⟨Or.inr hm, hn⟩
      · rintro ⟨hc | hm, hn⟩
        · exact absurd ((congrArg Prod.fst hc).trans h) hn
        · exact ⟨hm, hn⟩
    · simp only [eraseKey, if_neg h, List.mem_cons, ih]
      constructor
      · rintro (hc | ⟨hm, hn⟩)
        · refine ⟨Or.inl hc, ?_⟩
          rw [hc]
          exact h
        · exact ⟨Or.inr hm, hn⟩
      · rintro ⟨hc | hm, hn⟩
        · exact Or.inl hc
        · exact Or.inr ⟨hm, hn⟩

/-! ### Effect lemmas for the write and backup primitives -/

theorem write_preserves (env : Env) (m : ServerFile) (name : String) (o : SyncOptions)
    (fs : FS) :
    (write env m name o fs).2.backup = fs.backup ∧
    (write env m name o fs).2.backupDirExists = fs.backupDirExists ∧
    ∀ k, k ≠ name → findFile (write env m name o fs).2.mods k = findFile fs.mods k := by
  unfold write
  dsimp only
  split
  · exact ⟨rfl, rfl, fun k _ => rfl⟩
  · split
    · exact ⟨rfl, rfl, fun k _ => rfl⟩
    · split
      · exact ⟨rfl, rfl, fun k hk => findFile_setFile_ne _ _ _ _ hk⟩
      · exact ⟨rfl, rfl, fun k hk => findFile_setFile_ne _ _ _ _ hk⟩

theorem write_ok_mods (env : Env) (m : ServerFile) (name : String) (o : SyncOptions)
    (fs : FS) (h : (write env m name o fs).1 = none) :
    findFile (write env m name o fs).2.mods name = some ⟨name, m.size, false⟩ := by
  unfold write at h ⊢
  dsimp only at h ⊢
  cases hst : (if o.onWrite then m.statErr else none) with
  | some e => simp [hst] at h
  | none =>
    dsimp only
    by_cases h1 : joinPath modsDir name ∈ env.createFails
    · simp [hst, h1] at h
    · rw [if_neg h1]
      cases hw : m.writeErr with
      | some e => simp [hst, h1, hw] at h
      | none => exact findFile_setFile_self _ _ _

theorem backup_preserves_ne (env : Env) (n : String) (fs : FS) (k : String) (h : k ≠ n) :
    findFile (backup env n fs).2.mods k = findFile fs.mods k ∧
    findFile (backup env n fs).2.backup k = findFile fs.backup k ∧
    (backup env n fs).2.backupDirExists = fs.backupDirExists := by
  unfold backup
  dsimp only
  split
  · exact ⟨rfl, rfl, rfl⟩
  · split
    · exact ⟨rfl, rfl, rfl⟩
    · split
      · exact ⟨rfl, rfl, rfl⟩
      · exact ⟨findFile_removeFile_ne _ _ _ h, findFile_setFile_ne _ _ _ _ h, rfl⟩

theorem backup_ok (env : Env) (n : String) (fs : FS) (h : (backup env n fs).1 = none) :
    findFile (backup env n fs).2.mods n = none ∧
    ∃ e, findFile fs.mods n = some e ∧
      findFile (backup env n fs).2.backup n = some ⟨n, e.size, false⟩ ∧
      (backup env n fs).2.backupDirExists = fs.backupDirExists := by
  unfold backup at h ⊢
  dsimp only at h ⊢
  by_cases h1 : joinPath modsDir n ∈ env.renameFails
  · simp [h1] at h
  · rw [if_neg h1]
    by_cases h2 : (!fs.backupDirExists) = true
    · simp [h1, h2] at h
    · rw [if_neg h2]
      cases heq : findFile fs.mods n with
      | none => simp [h1, h2, heq] at h
      | some e =>
        dsimp only
        refine ⟨findFile_removeFile_self _ _, e, ?_, findFile_setFile_self _ _ _, rfl⟩
        first
        | exact heq
        | rfl

theorem backup_preserves_flag (env : Env) (n : String) (fs : FS) :
    (backup env n fs).2.backupDirExists = fs.backupDirExists := by
  unfold backup
  dsimp only
  split
  · rfl
  · split
    · rfl
    · split
      · rfl
      · rfl

theorem backup_err_of_missing (env : Env) (n : String) (fs : FS)
    (h : findFile fs.mods n = none) : (backup env n fs).1 ≠ none := by
  unfold backup
  dsimp only
  split
  · simp
  · split
    · simp
    · rw [h]
      simp

/-! ### Per-task lemmas -/

theorem syncTask_err (env : Env) (o : SyncOptions) (m : ServerFile) (fs : FS)
    (inv : List (String × Int)) :
    (syncTask env o m fs inv).err = (taskBody env o m fs inv).err := rfl

theorem syncTask_fs (env : Env) (o : SyncOptions) (m : ServerFile) (fs : FS)
    (inv : List (String × Int)) :
    (syncTask env o m fs inv).fs = (taskBody env o m fs inv).fs := rfl

theorem syncTask_inv (env : Env) (o : SyncOptions) (m : ServerFile) (fs : FS)
    (inv : List (String × Int)) :
    (syncTask env o m fs inv).inv = (taskBody env o m fs inv).inv := rfl

theorem taskBody_err_none (env : Env) (o : SyncOptions) (m : ServerFile) (fs : FS)
    (inv : List (String × Int)) (h : (taskBody env o m fs inv).err = none) :
    (taskBody env o m fs inv).inv =
      (if !o.keepExisting then eraseKey inv m.name else inv) ∧
    (∀ k, k ≠ m.name →
      findFile (taskBody env o m fs inv).fs.mods k = findFile fs.mods k ∧
      findFile (taskBody env o m fs inv).fs.backup k = findFile fs.backup k) ∧
    (taskBody env o m fs inv).fs.backupDirExists = fs.backupDirExists := by
  unfold taskBody at h ⊢
  cases hs : m.statErr with
  | some e => simp [hs] at h
  | none =>
    dsimp only at h ⊢
    by_cases hf : o.force = true
    · rw [if_pos hf]
      cases hw : write env m m.name o fs with
      | mk r fs' =>
        cases r with
        | some e => simp [hs, hf, hw] at h
        | none =>
          have hp := write_preserves env m m.name o fs
          rw [hw] at hp
          have hp1 : fs'.backup = fs.backup := hp.1
          have hp3 : fs'.backupDirExists = fs.backupDirExists := hp.2.1
          have hp2 : ∀ k, k ≠ m.name → findFile fs'.mods k = findFile fs.mods k := hp.2.2
          refine ⟨rfl, fun k hk => ⟨hp2 k hk, ?_⟩, hp3⟩
          show findFile fs'.backup k = findFile fs.backup k
          rw [hp1]
    · rw [if_neg hf]
      cases hl : lookupSize inv m.name with
      | none =>
        cases hw : write env m m.name o fs with
        | mk r fs' =>
          cases r with
          | some e => simp [hs, hf, hl, hw] at h
          | none =>
            have hp := write_preserves env m m.name o fs
            rw [hw] at hp
            have hp1 : fs'.backup = fs.backup := hp.1
            have hp3 : fs'.backupDirExists = fs.backupDirExists := hp.2.1
            have hp2 : ∀ k, k ≠ m.name → findFile fs'.mods k = findFile fs.mods k := hp.2.2
            refine ⟨rfl, fun k hk => ⟨hp2 k hk, ?_⟩, hp3⟩
            show findFile fs'.backup k = findFile fs.backup k
            rw [hp1]
      | some size =>
        dsimp only
        by_cases hsz : size ≠ m.size
        · rw [if_pos hsz]
          cases hb : backup env m.name fs with
          | mk rb fsb =>
            cases rb with
            | some e => simp [hs, hf, hl, hsz, hb] at h
            | none =>
              dsimp only
              cases hw : write env m m.name o fsb with
              | mk rw2 fsw =>
                cases rw2 with
                | some e => simp [hs, hf, hl, hsz, hb, hw] at h
                | none =>
                  have hwp := write_preserves env m m.name o fsb
                  rw [hw] at hwp
                  have hw1 : fsw.backup = fsb.backup := hwp.1
                  have hw3 : fsw.backupDirExists = fsb.backupDirExists := hwp.2.1
                  have hw2 : ∀ k, k ≠ m.name → findFile fsw.mods k = findFile fsb.mods k :=
                    hwp.2.2
                  have hbf := backup_preserves_flag env m.name fs
                  rw [hb] at hbf
                  have hb3 : fsb.backupDirExists = fs.backupDirExists := hbf
                  refine ⟨rfl, fun k hk => ?_, ?_⟩
                  · have h1 := backup_preserves_ne env m.name fs k hk
                    rw [hb] at h1
                    have hb1 : findFile fsb.mods k = findFile fs.mods k := h1.1
                    have hb2 : findFile fsb.backup k = findFile fs.backup k := h1.2.1
                    constructor
                    · show findFile fsw.mods k = findFile fs.mods k
                      rw [hw2 k hk, hb1]
                    · show findFile fsw.backup k = findFile fs.backup k
                      rw [hw1, hb2]
                  · show fsw.backupDirExists = fs.backupDirExists
                    rw [hw3, hb3]
        · rw [if_neg hsz]
          exact ⟨rfl, fun k _ => ⟨rfl, rfl⟩, rfl⟩

/-! ### The result collector -/

theorem firstError_eq_none (rs : List (Option GoError)) :
    firstError rs = none ↔ ∀ x ∈ rs, x = none := by
  induction rs with
  | nil => simp [firstError]
  | cons r rest ih =>
    cases r with
    | some e => simp [firstError]
    | none => simp [firstError, ih]

theorem firstError_spec (rs : List (Option GoError)) (e : GoError)
    (h : firstError rs = some e) :
    ∃ pre post, rs = pre ++ some e :: post ∧ (∀ x ∈ pre, x = none) ∧
      ∀ post2, firstError (pre ++ some e :: post2) = some e := by
  induction rs with
  | nil => simp [firstError] at h
  | cons r rest ih =>
    cases r with
    | some e2 =>
      rw [firstError] at h
      injection h with h2
      subst h2
      exact ⟨[], rest, rfl, by simp, fun post2 => rfl⟩
    | none =>
      rw [firstError] at h
      obtain ⟨pre, post, heq, hpre, hfe⟩ := ih h
      refine ⟨none :: pre, post, by rw [List.cons_append, heq], ?_, fun post2 => ?_⟩
      · intro x hx
        rcases List.mem_cons.mp hx with hx | hx
        · exact hx
        · exact hpre x hx
      · rw [List.cons_append, firstError]
        exact hfe post2

/-! ### Write-phase lemmas -/

theorem runTasks_results_head (env : Env) (o : SyncOptions) (m : ServerFile)
    (rest : List ServerFile) (fs : FS) (inv : List (String × Int))
    (h : ∀ r ∈ (runTasks env o (m :: rest) fs inv).results, r = none) :
    (syncTask env o m fs inv).err = none ∧
    ∀ r ∈ (runTasks env o rest (syncTask env o m fs inv).fs
        (syncTask env o m fs inv).inv).results, r = none := by
  constructor
  · exact h _ (show (syncTask env o m fs inv).err ∈
      (runTasks env o (m :: rest) fs inv).results from List.mem_cons_self _ _)
  · intro r hr
    exact h r (show r ∈ (runTasks env o (m :: rest) fs inv).results from
      List.mem_cons_of_mem _ hr)

theorem runTasks_inv_mem (env : Env) (o : SyncOptions) (mods : List ServerFile)
    (hk : o.keepExisting = false) :
    ∀ fs inv, (∀ r ∈ (runTasks env o mods fs inv).results, r = none) →
      ∀ x, x ∈ (runTasks env o mods fs inv).inv ↔
        x ∈ inv ∧ x.1 ∉ mods.map ServerFile.name := by
  induction mods with
  | nil =>
    intro fs inv h x
    simp [runTasks]
  | cons m rest ih =>
    intro fs inv h x
    obtain ⟨ht, hrest⟩ := runTasks_results_head env o m rest fs inv h
    have hinv := (taskBody_err_none env o m fs inv ht).1
    rw [hk] at hinv
    simp only [Bool.not_false, if_pos] at hinv
    have hgoal : x ∈ (runTasks env o (m :: rest) fs inv).inv ↔
        x ∈ (runTasks env o rest (syncTask env o m fs inv).fs
          (syncTask env o m fs inv).inv).inv := Iff.rfl
    rw [hgoal, ih _ _ hrest x, syncTask_inv, hinv, mem_eraseKey]
    simp only [List.map_cons, List.mem_cons, not_or]
    constructor
    · rintro ⟨⟨hm, hne⟩, hnr⟩
      exact ⟨hm, hne, hnr⟩
    · rintro ⟨hm, hne, hnr⟩
      exact ⟨⟨hm, hne⟩, hnr⟩

theorem runTasks_preserves (env : Env) (o : SyncOptions) (mods : List ServerFile) :
    ∀ fs inv k, (∀ r ∈ (runTasks env o mods fs inv).results, r = none) →
      k ∉ mods.map ServerFile.name →
      findFile (runTasks env o mods fs inv).fs.mods k = findFile fs.mods k ∧
      findFile (runTasks env o mods fs inv).fs.backup k = findFile fs.backup k ∧
      (runTasks env o mods fs inv).fs.backupDirExists = fs.backupDirExists := by
  induction mods with
  | nil =>
    intro fs inv k h hk
    exact ⟨rfl, rfl, rfl⟩
  | cons m rest ih =>
    intro fs inv k h hk
    simp only [List.map_cons, List.mem_cons, not_or] at hk
    obtain ⟨ht, hrest⟩ := runTasks_results_head env o m rest fs inv h
    obtain ⟨-, hpres, hflag⟩ := taskBody_err_none env o m fs inv ht
    have h1 := hpres k hk.1
    have h2 := ih (syncTask env o m fs inv).fs (syncTask env o m fs inv).inv k hrest
      (by simpa using hk.2)
    exact ⟨h2.1.trans h1.1, h2.2.1.trans h1.2, h2.2.2.trans hflag⟩

/-! ### Event-trace lemmas -/

theorem taskBody_events_all (env : Env) (o : SyncOptions) (m : ServerFile) (fs : FS)
    (inv : List (String × Int)) :
    (taskBody env o m fs inv).events.all Event.isTaskEvent = true := by
  unfold taskBody
  dsimp only
  repeat' split
  all_goals rfl

theorem syncTask_events_all (env : Env) (o : SyncOptions) (m : ServerFile) (fs : FS)
    (inv : List (String × Int)) :
    (syncTask env o m fs inv).events.all Event.isTaskEvent = true := by
  have h := taskBody_events_all env o m fs inv
  show ((taskBody env o m fs inv).events ++ [Event.closeArt m.name]).all Event.isTaskEvent = true
  rw [List.all_append, h]
  rfl

theorem runTasks_events_all (env : Env) (o : SyncOptions) (mods : List ServerFile) :
    ∀ fs inv, (runTasks env o mods fs inv).events.all Event.isTaskEvent = true := by
  induction mods with
  | nil => intro fs inv; rfl
  | cons m rest ih =>
    intro fs inv
    have h1 := syncTask_events_all env o m fs inv
    have h2 := ih (syncTask env o m fs inv).fs (syncTask env o m fs inv).inv
    show ((syncTask env o m fs inv).events ++
      (runTasks env o rest (syncTask env o m fs inv).fs
        (syncTask env o m fs inv).inv).events).all Event.isTaskEvent = true
    rw [List.all_append, h1, h2]
    rfl

theorem runBackups_events_all (env : Env) (names : List String) :
    ∀ fs, (runBackups env names fs).events.all Event.isTaskEvent = true := by
  induction names with
  | nil => intro fs; rfl
  | cons n rest ih =>
    intro fs
    show (Event.backupArt n ::
      (runBackups env rest (backup env n fs).2).events).all Event.isTaskEvent = true
    rw [List.all_cons, ih (backup env n fs).2]
    rfl

theorem not_mem_of_all_taskEvent (l : List Event) (h : l.all Event.isTaskEvent = true)
    (e : Event) (he : e.isTaskEvent = false) : e ∉ l := by
  intro hm
  rw [List.all_eq_true] at h
  have h2 := h e hm
  rw [he] at h2
  exact Bool.false_ne_true h2

theorem taskBody_force_events (env : Env) (o : SyncOptions) (m : ServerFile) (fs : FS)
    (inv : List (String × Int)) (hf : o.force = true) :
    (taskBody env o m fs inv).events =
      (if m.statErr = none then [.statArt m.name, .writeArt m.name]
       else [.statArt m.name]) := by
  unfold taskBody
  cases hs : m.statErr with
  | some e => simp [hs]
  | none =>
    dsimp only
    rw [if_pos hf]
    cases hw : write env m m.name o fs with
    | mk r fs2 =>
      cases r with
      | some e => simp
      | none => simp

/-! ### Backup-phase lemmas -/

theorem runBackups_results_head (env : Env) (n : String) (rest : List String) (fs : FS)
    (h : ∀ r ∈ (runBackups env (n :: rest) fs).results, r = none) :
    (backup env n fs).1 = none ∧
    ∀ r ∈ (runBackups env rest (backup env n fs).2).results, r = none := by
  constructor
  · exact h _ (show (backup env n fs).1 ∈ (runBackups env (n :: rest) fs).results from
      List.mem_cons_self _ _)
  · intro r hr
    exact h r (show r ∈ (runBackups env (n :: rest) fs).results from
      List.mem_cons_of_mem _ hr)

theorem runBackups_missing (env : Env) (names : List String) :
    ∀ fs k, (∀ r ∈ (runBackups env names fs).results, r = none) →
      findFile fs.mods k = none →
      findFile (runBackups env names fs).fs.mods k = none ∧
      findFile (runBackups env names fs).fs.backup k = findFile fs.backup k := by
  induction names with
  | nil =>
    intro fs k h hm
    exact ⟨hm, rfl⟩
  | cons n rest ih =>
    intro fs k h hm
    obtain ⟨h1, hrest⟩ := runBackups_results_head env n rest fs h
    by_cases hk : k = n
    · subst hk
      exact absurd h1 (backup_err_of_missing env k fs hm)
    · have hpres := backup_preserves_ne env n fs k hk
      have hrec := ih (backup env n fs).2 k hrest (hpres.1.trans hm)
      exact ⟨hrec.1, hrec.2.trans hpres.2.1⟩

theorem runBackups_moves (env : Env) (names : List String) :
    ∀ fs k, (∀ r ∈ (runBackups env names fs).results, r = none) → k ∈ names →
      findFile (runBackups env names fs).fs.mods k = none ∧
      ∀ e, findFile fs.mods k = some e →
        findFile (runBackups env names fs).fs.backup k = some ⟨k, e.size, false⟩ := by
  induction names with
  | nil =>
    intro fs k h hk
    exact absurd hk (List.not_mem_nil k)
  | cons n rest ih =>
    intro fs k h hk
    obtain ⟨h1, hrest⟩ := runBackups_results_head env n rest fs h
    by_cases hkn : k = n
    · subst hkn
      obtain ⟨hmn, e0, hf0, hb0, -⟩ := backup_ok env k fs h1
      have hmiss := runBackups_missing env rest (backup env k fs).2 k hrest hmn
      refine ⟨hmiss.1, fun e he => ?_⟩
      have he0 : e0 = e := by
        rw [hf0] at he
        injection he
      show findFile (runBackups env rest (backup env k fs).2).fs.backup k =
        some ⟨k, e.size, false⟩
      rw [hmiss.2, hb0, he0]
    · have hpres := backup_preserves_ne env n fs k hkn
      have hkrest : k ∈ rest := (List.mem_cons.mp hk).resolve_left hkn
      have hrec := ih (backup env n fs).2 k hrest hkrest
      refine ⟨hrec.1, fun e he => ?_⟩
      exact hrec.2 e (hpres.1.trans he)

/-! ### Unfolding lemmas for the orchestrator -/

theorem afterScan_err (env : Env) (fs : FS) (ev : List Event) (mods : List ServerFile)
    (o : SyncOptions) (inv : List (String × Int)) (e : GoError)
    (h : firstError (runTasks env o mods fs inv).results = some e) :
    afterScan env fs ev mods o inv =
      ⟨.err e, (runTasks env o mods fs inv).fs,
        ev ++ (runTasks env o mods fs inv).events⟩ := by
  unfold afterScan
  dsimp only
  rw [h]

theorem afterScan_keep (env : Env) (fs : FS) (ev : List Event) (mods : List ServerFile)
    (o : SyncOptions) (inv : List (String × Int)) (hk : o.keepExisting = true)
    (hfe : firstError (runTasks env o mods fs inv).results = none) :
    afterScan env fs ev mods o inv =
      ⟨.ok, (runTasks env o mods fs inv).fs,
        ev ++ (runTasks env o mods fs inv).events⟩ := by
  unfold afterScan
  dsimp only
  rw [hfe, hk]
  rfl

theorem sync_run (env : Env) (fs : FS) (mods : List ServerFile) (o : SyncOptions)
    (hdir : env.dirErr = none) (hmk : env.mkdirModsOk = true) (hrd : env.readDirOk = true)
    (hne : mods ≠ []) :
    Sync env fs mods (some o) =
      (if !(o.keepExisting && o.force) then
        afterScan env fs [.remoteList, .mkdirMods, .readDir] mods o (scanInventory fs.mods)
      else afterScan env fs [.remoteList, .mkdirMods] mods o []) := by
  have hlen : ¬ mods.length = 0 := by
    simpa [List.length_eq_zero] using hne
  unfold Sync
  rw [hdir]
  dsimp only
  rw [if_neg hlen, hmk, hrd]
  rfl

/-! ### More orchestrator unfolding lemmas -/

theorem sync_nil_options (env : Env) (fs : FS) (mods : List ServerFile)
    (hdir : env.dirErr = none) (hmk : env.mkdirModsOk = true) (hne : mods ≠ []) :
    Sync env fs mods none = ⟨.panicked, fs, [.remoteList, .mkdirMods]⟩ := by
  have hlen : ¬ mods.length = 0 := by
    simpa [List.length_eq_zero] using hne
  unfold Sync
  rw [hdir]
  dsimp only
  rw [if_neg hlen, hmk]
  rfl

theorem sync_mkdir_fails (env : Env) (fs : FS) (mods : List ServerFile)
    (o : Option SyncOptions) (hdir : env.dirErr = none) (hne : mods ≠ [])
    (hmk : env.mkdirModsOk = false) :
    Sync env fs mods o = ⟨.err (.mkdirFailed modsDir), fs, [.remoteList, .mkdirMods]⟩ := by
  have hlen : ¬ mods.length = 0 := by
    simpa [List.length_eq_zero] using hne
  unfold Sync
  rw [hdir]
  dsimp only
  rw [if_neg hlen, hmk]
  rfl

theorem sync_readdir_fails (env : Env) (fs : FS) (mods : List ServerFile)
    (o : SyncOptions) (hdir : env.dirErr = none) (hmk : env.mkdirModsOk = true)
    (hne : mods ≠ []) (hkf : (o.keepExisting && o.force) = false)
    (hrd : env.readDirOk = false) :
    Sync env fs mods (some o) =
      ⟨.err (.readDirFailed modsDir), fs, [.remoteList, .mkdirMods, .readDir]⟩ := by
  have hlen : ¬ mods.length = 0 := by
    simpa [List.length_eq_zero] using hne
  unfold Sync
  rw [hdir]
  dsimp only
  rw [if_neg hlen, hmk]
  show (if (!(o.keepExisting && o.force)) = true then _ else _) = _
  rw [hkf, hrd]
  rfl

theorem sync_run_skip_scan (env : Env) (fs : FS) (mods : List ServerFile)
    (o : SyncOptions) (hdir : env.dirErr = none) (hmk : env.mkdirModsOk = true)
    (hne : mods ≠ []) (hkf : (o.keepExisting && o.force) = true) :
    Sync env fs mods (some o) = afterScan env fs [.remoteList, .mkdirMods] mods o [] := by
  have hlen : ¬ mods.length = 0 := by
    simpa [List.length_eq_zero] using hne
  unfold Sync
  rw [hdir]
  dsimp only
  rw [if_neg hlen, hmk]
  show (if (!(o.keepExisting && o.force)) = true then _ else _) = _
  rw [hkf]
  rfl

theorem append_prefix3 {α : Type} (a b c d : List α) :
    ∃ t, ((a ++ b) ++ c) ++ d = a ++ t :=
  ⟨b ++ (c ++ d), by simp [List.append_assoc]⟩

theorem afterScan_events_prefix (env : Env) (fs : FS) (ev : List Event)
    (mods : List ServerFile) (o : SyncOptions) (inv : List (String × Int)) :
    ∃ tail, (afterScan env fs ev mods o inv).events = ev ++ tail := by
  unfold afterScan
  dsimp only
  rcases Option.eq_none_or_eq_some
      (firstError (runTasks env o mods fs inv).results) with hfe | ⟨e, hfe⟩
  · rw [hfe]
    dsimp only
    split
    · split
      · exact append_prefix3 ev _ _ _
      · exact append_prefix3 ev _ _ _
    · exact ⟨_, rfl⟩
  · rw [hfe]
    exact ⟨_, rfl⟩

theorem sync_events_prefix (env : Env) (fs : FS) (mods : List ServerFile)
    (o : Option SyncOptions) (hdir : env.dirErr = none) (hmk : env.mkdirModsOk = true)
    (hne : mods ≠ []) :
    ∃ tail, (Sync env fs mods o).events = [.remoteList, .mkdirMods] ++ tail := by
  have hlen : ¬ mods.length = 0 := by
    simpa [List.length_eq_zero] using hne
  unfold Sync
  rw [hdir]
  dsimp only
  rw [if_neg hlen, hmk]
  cases o with
  | none => exact ⟨[], rfl⟩
  | some o =>
    show ∃ tail,
      (if (!(o.keepExisting && o.force)) = true then
        (if (!env.readDirOk) = true then
          SyncResult.mk (.err (.readDirFailed modsDir)) fs
            ([Event.remoteList, Event.mkdirMods] ++ [Event.readDir])
        else afterScan env fs ([Event.remoteList, Event.mkdirMods] ++ [Event.readDir])
          mods o (scanInventory fs.mods))
      else afterScan env fs [Event.remoteList, Event.mkdirMods] mods o []).events =
        [Event.remoteList, Event.mkdirMods] ++ tail
    by_cases hkf : (!(o.keepExisting && o.force)) = true
    · rw [if_pos hkf]
      by_cases hrd : (!env.readDirOk) = true
      · rw [if_pos hrd]
        exact ⟨[.readDir], rfl⟩
      · rw [if_neg hrd]
        obtain ⟨t, ht⟩ := afterScan_events_prefix env fs
          ([Event.remoteList, Event.mkdirMods] ++ [Event.readDir]) mods o
          (scanInventory fs.mods)
        exact ⟨[Event.readDir] ++ t, by rw [ht, List.append_assoc]⟩
    · rw [if_neg hkf]
      exact afterScan_events_prefix env fs [Event.remoteList, Event.mkdirMods] mods o []

theorem afterScan_events_keep (env : Env) (fs : FS) (ev : List Event)
    (mods : List ServerFile) (o : SyncOptions) (inv : List (String × Int))
    (hk : o.keepExisting = true) :
    (afterScan env fs ev mods o inv).events = ev ++ (runTasks env o mods fs inv).events := by
  unfold afterScan
  dsimp only
  rcases Option.eq_none_or_eq_some
      (firstError (runTasks env o mods fs inv).results) with hfe | ⟨e, hfe⟩
  · rw [hfe, hk]
    rfl
  · rw [hfe]

theorem afterScan_ok_results (env : Env) (fs : FS) (ev : List Event)
    (mods : List ServerFile) (o : SyncOptions) (inv : List (String × Int))
    (h : (afterScan env fs ev mods o inv).outcome = .ok) :
    ∀ r ∈ (runTasks env o mods fs inv).results, r = none := by
  rcases Option.eq_none_or_eq_some
      (firstError (runTasks env o mods fs inv).results) with hfe | ⟨e, hfe⟩
  · exact (firstError_eq_none _).mp hfe
  · rw [afterScan_err env fs ev mods o inv e hfe] at h
    exact absurd h (by simp)

theorem afterScan_ok_fs_skip (env : Env) (fs : FS) (ev : List Event)
    (mods : List ServerFile) (o : SyncOptions) (inv : List (String × Int))
    (hfe : firstError (runTasks env o mods fs inv).results = none)
    (hcond : (!o.keepExisting &&
      decide ((runTasks env o mods fs inv).inv.length ≠ 0)) = false) :
    (afterScan env fs ev mods o inv).fs = (runTasks env o mods fs inv).fs := by
  unfold afterScan
  dsimp only
  rw [hfe]
  dsimp only
  rw [hcond]
  rfl

theorem afterScan_ok_fs_backup (env : Env) (fs : FS) (ev : List Event)
    (mods : List ServerFile) (o : SyncOptions) (inv : List (String × Int))
    (hfe : firstError (runTasks env o mods fs inv).results = none)
    (hcond : (!o.keepExisting &&
      decide ((runTasks env o mods fs inv).inv.length ≠ 0)) = true)
    (hok : (afterScan env fs ev mods o inv).outcome = .ok) :
    (∀ r ∈ (runBackups env ((runTasks env o mods fs inv).inv.map Prod.fst)
        (if env.mkdirBackupOk then
          { (runTasks env o mods fs inv).fs with backupDirExists := true }
        else (runTasks env o mods fs inv).fs)).results, r = none) ∧
    (afterScan env fs ev mods o inv).fs =
      (runBackups env ((runTasks env o mods fs inv).inv.map Prod.fst)
        (if env.mkdirBackupOk then
          { (runTasks env o mods fs inv).fs with backupDirExists := true }
        else (runTasks env o mods fs inv).fs)).fs := by
  unfold afterScan at hok ⊢
  dsimp only at hok ⊢
  rw [hfe] at hok ⊢
  dsimp only at hok ⊢
  rw [hcond] at hok ⊢
  rcases Option.eq_none_or_eq_some
      (firstError (runBackups env ((runTasks env o mods fs inv).inv.map Prod.fst)
        (if env.mkdirBackupOk = true then
          { (runTasks env o mods fs inv).fs with backupDirExists := true }
        else (runTasks env o mods fs inv).fs)).results) with hb | ⟨e, hb⟩
  · rw [hb]
    exact ⟨(firstError_eq_none _).mp hb, rfl⟩
  · rw [hb] at hok
    exact absurd hok (by simp)

theorem afterScan_backup_err (env : Env) (fs : FS) (ev : List Event)
    (mods : List ServerFile) (o : SyncOptions) (inv : List (String × Int)) (e : GoError)
    (hfe : firstError (runTasks env o mods fs inv).results = none)
    (hcond : (!o.keepExisting &&
      decide ((runTasks env o mods fs inv).inv.length ≠ 0)) = true)
    (hb : firstError (runBackups env ((runTasks env o mods fs inv).inv.map Prod.fst)
        (if env.mkdirBackupOk then
          { (runTasks env o mods fs inv).fs with backupDirExists := true }
        else (runTasks env o mods fs inv).fs)).results = some e) :
    (afterScan env fs ev mods o inv).outcome = .err e ∧
    (afterScan env fs ev mods o inv).fs =
      (runBackups env ((runTasks env o mods fs inv).inv.map Prod.fst)
        (if env.mkdirBackupOk then
          { (runTasks env o mods fs inv).fs with backupDirExists := true }
        else (runTasks env o mods fs inv).fs)).fs := by
  unfold afterScan
  dsimp only
  rw [hfe]
  dsimp only
  rw [hcond]
  rw [hb]
  exact ⟨rfl, rfl⟩

/-! ### Scanner lemma -/

theorem scanInventory_findFile (l : List FileEntry)
    (hnodup : (l.map FileEntry.name).Nodup) (n : String) (s : Int)
    (h : (n, s) ∈ scanInventory l) : findFile l n = some ⟨n, s, false⟩ := by
  unfold scanInventory at h
  rw [List.mem_map] at h
  obtain ⟨e, he, heq⟩ := h
  rw [List.mem_filter] at he
  obtain ⟨hmem, hfilt⟩ := he
  injection heq with h1 h2
  simp only [Bool.and_eq_true, Bool.not_eq_true'] at hfilt
  have hff := findFile_of_mem_nodup l e hnodup hmem
  rw [h1] at hff
  rw [hff]
  cases e with
  | mk en es ed =>
    dsimp only at h1 h2
    rw [h1, h2]
    have hd : ed = false := hfilt.1
    rw [hd]

/-! ### Close-count lemmas -/

theorem taskBody_events_no_close (env : Env) (o : SyncOptions) (m : ServerFile) (fs : FS)
    (inv : List (String × Int)) :
    (taskBody env o m fs inv).events.all (fun e => ! e.isClose) = true := by
  unfold taskBody
  dsimp only
  repeat' split
  all_goals rfl

theorem count_close_eq_zero (l : List Event) (h : l.all (fun e => ! e.isClose) = true)
    (n : String) : l.count (Event.closeArt n) = 0 := by
  rw [List.count_eq_zero]
  intro hm
  have h2 := List.all_eq_true.mp h _ hm
  simp [Event.isClose] at h2

theorem syncTask_count_close (env : Env) (o : SyncOptions) (m : ServerFile) (fs : FS)
    (inv : List (String × Int)) (n : String) :
    (syncTask env o m fs inv).events.count (Event.closeArt n) =
      (if m.name = n then 1 else 0) := by
  show ((taskBody env o m fs inv).events ++ [Event.closeArt m.name]).count
    (Event.closeArt n) = _
  rw [List.count_append,
    count_close_eq_zero _ (taskBody_events_no_close env o m fs inv) n]
  by_cases hmn : m.name = n
  · rw [hmn, if_pos rfl]
    simp
  · rw [if_neg hmn]
    have hmn2 : Event.closeArt n ≠ Event.closeArt m.name := by
      intro hh
      injection hh with hh2
      exact hmn hh2.symm
    simp [List.count_cons, hmn2]

/-! ### Per-branch task lemmas -/

theorem taskBody_write_branch (env : Env) (o : SyncOptions) (m : ServerFile) (fs : FS)
    (inv : List (String × Int)) (hstat : m.statErr = none)
    (hbr : o.force = true ∨ (o.force = false ∧ lookupSize inv m.name = none)) :
    (taskBody env o m fs inv).fs = (write env m m.name o fs).2 ∧
    (taskBody env o m fs inv).events = [.statArt m.name, .writeArt m.name] := by
  unfold taskBody
  rw [hstat]
  dsimp only
  rcases hbr with hf | ⟨hf, hl⟩
  · rw [if_pos hf]
    cases hw : write env m m.name o fs with
    | mk r fs2 =>
      cases r with
      | some e => exact ⟨rfl, rfl⟩
      | none => exact ⟨rfl, rfl⟩
  · rw [if_neg (by rw [hf]; exact Bool.false_ne_true), hl]
    cases hw : write env m m.name o fs with
    | mk r fs2 =>
      cases r with
      | some e => exact ⟨rfl, rfl⟩
      | none => exact ⟨rfl, rfl⟩

theorem taskBody_replace_branch (env : Env) (o : SyncOptions) (m : ServerFile) (fs : FS)
    (inv : List (String × Int)) (size : Int) (hstat : m.statErr = none)
    (hf : o.force = false) (hl : lookupSize inv m.name = some size)
    (hsz : size ≠ m.size) :
    (taskBody env o m fs inv).events =
      [.statArt m.name, .backupArt m.name] ++
        (if (backup env m.name fs).1 = none then [.writeArt m.name] else []) := by
  unfold taskBody
  rw [hstat]
  dsimp only
  rw [if_neg (by rw [hf]; exact Bool.false_ne_true), hl]
  dsimp only
  rw [if_pos hsz]
  cases hb : backup env m.name fs with
  | mk rb fsb =>
    cases rb with
    | some e => simp
    | none =>
      dsimp only
      cases hw : write env m m.name o fsb with
      | mk rw2 fsw =>
        cases rw2 with
        | some e => simp
        | none => simp

theorem taskBody_skip_branch (env : Env) (o : SyncOptions) (m : ServerFile) (fs : FS)
    (inv : List (String × Int)) (size : Int) (hstat : m.statErr = none)
    (hf : o.force = false) (hl : lookupSize inv m.name = some size)
    (hsz : ¬ size ≠ m.size) :
    (taskBody env o m fs inv).events = [.statArt m.name] ∧
    (taskBody env o m fs inv).fs = fs := by
  unfold taskBody
  rw [hstat]
  dsimp only
  rw [if_neg (by rw [hf]; exact Bool.false_ne_true), hl]
  dsimp only
  rw [if_neg hsz]
  exact ⟨rfl, rfl⟩

theorem runTasks_force_events_props (env : Env) (o : SyncOptions)
    (mods : List ServerFile) (hf : o.force = true) :
    ∀ fs inv,
      (∀ n, Event.backupArt n ∉ (runTasks env o mods fs inv).events) ∧
      (∀ m ∈ mods, m.statErr = none →
        Event.writeArt m.name ∈ (runTasks env o mods fs inv).events) := by
  induction mods with
  | nil =>
    intro fs inv
    exact ⟨fun n h => absurd h (List.not_mem_nil _),
      fun m hm => absurd hm (List.not_mem_nil m)⟩
  | cons m rest ih =>
    intro fs inv
    have hte : (syncTask env o m fs inv).events =
        (if m.statErr = none then [Event.statArt m.name, Event.writeArt m.name]
         else [Event.statArt m.name]) ++ [Event.closeArt m.name] := by
      show (taskBody env o m fs inv).events ++ [Event.closeArt m.name] = _
      rw [taskBody_force_events env o m fs inv hf]
    have hsplit : (runTasks env o (m :: rest) fs inv).events =
        (syncTask env o m fs inv).events ++
          (runTasks env o rest (syncTask env o m fs inv).fs
            (syncTask env o m fs inv).inv).events := rfl
    constructor
    · intro n hn
      rw [hsplit] at hn
      rcases List.mem_append.mp hn with h | h
      · rw [hte] at h
        by_cases hs : m.statErr = none
        · rw [if_pos hs] at h
          simp at h
        · rw [if_neg hs] at h
          simp at h
      · exact absurd h ((ih _ _).1 n)
    · intro m2 hm2 hs2
      rw [hsplit]
      rcases List.mem_cons.mp hm2 with h | h
      · subst h
        apply List.mem_append.mpr
        left
        rw [hte, if_pos hs2]
        simp
      · exact List.mem_append.mpr (Or.inr ((ih _ _).2 m2 h hs2))

/-! ### Claim theorems -/

/-- C5: `Sync` with an empty remote collection always fails with the
no-server-mods error — for every fault environment with successful path
resolution, every options value (nil included) and every local state — and
performs no scan, no write, no backup and no inventory change: the
filesystem is returned unchanged and the trace holds only the listing. -/
theorem C5_empty_remote_always_fails (env : Env) (fs : FS) (o : Option SyncOptions)
    (hdir : env.dirErr = none) :
    Sync env fs [] o = ⟨.err .noServerMods, fs, [.remoteList]⟩ := by
  unfold Sync
  rw [hdir]
  rfl

theorem C5_empty_remote_always_fails_witness :
    ({} : Env).dirErr = none ∧
    Sync {} ⟨[⟨"a.jar", 4, false⟩], [], false⟩ [] none =
      ⟨.err .noServerMods, ⟨[⟨"a.jar", 4, false⟩], [], false⟩, [.remoteList]⟩ :=
  ⟨rfl, C5_empty_remote_always_fails {} ⟨[⟨"a.jar", 4, false⟩], [], false⟩ none rfl⟩

/-- C10: when path resolution and the mods-directory creation succeed, a
`Sync` call with a nil options pointer and a non-empty remote collection
always panics — the nil pointer is dereferenced at the `o.KeepExisting`
read on line 115, before any task is dispatched. -/
theorem C10_nil_options_panics (env : Env) (fs : FS) (mods : List ServerFile)
    (hdir : env.dirErr = none) (hmk : env.mkdirModsOk = true) (hne : mods ≠ []) :
    Sync env fs mods none = ⟨.panicked, fs, [.remoteList, .mkdirMods]⟩ :=
  sync_nil_options env fs mods hdir hmk hne

theorem C10_nil_options_panics_witness :
    ({} : Env).dirErr = none ∧ ({} : Env).mkdirModsOk = true ∧
    ([(⟨"a.jar", 7, none, none⟩ : ServerFile)] ≠ []) ∧
    Sync {} ⟨[], [], false⟩ [⟨"a.jar", 7, none, none⟩] none =
      ⟨.panicked, ⟨[], [], false⟩, [.remoteList, .mkdirMods]⟩ :=
  ⟨rfl, rfl, by simp, C10_nil_options_panics {} ⟨[], [], false⟩
    [⟨"a.jar", 7, none, none⟩] rfl rfl (by simp)⟩

/-- C4 is false as stated: in this run the mods-directory creation fails
and the run aborts with the mkdir error, yet the remote listing — remote
I/O — has already been performed (the trace is `remoteList` then
`mkdirMods`), so the directory is not ensured before all remote I/O and
the creation failure does not abort before remote I/O. -/
theorem C4_counterexample :
    Sync { mkdirModsOk := false } ⟨[], [], false⟩ [⟨"a.jar", 7, none, none⟩] (some {}) =
      ⟨.err (.mkdirFailed modsDir), ⟨[], [], false⟩, [.remoteList, .mkdirMods]⟩ ∧
    Event.remoteList ∈ (Sync { mkdirModsOk := false } ⟨[], [], false⟩
      [⟨"a.jar", 7, none, none⟩] (some {})).events :=
  ⟨by decide, by decide⟩

/-- C4 (amended): with a non-empty remote set the trace always begins with
the remote listing followed immediately by the mods-directory creation —
the directory is ensured before the scan, before any per-artifact remote
I/O and before any local write, but after the listing — and a creation
failure aborts the run at that point with the filesystem unchanged and no
task ever started. -/
theorem C4_mkdir_after_listing (env : Env) (fs : FS) (mods : List ServerFile)
    (o : Option SyncOptions) (hdir : env.dirErr = none) (hne : mods ≠ []) :
    (Sync env fs mods o).events.take 2 = [.remoteList, .mkdirMods] ∧
    (env.mkdirModsOk = false →
      Sync env fs mods o =
        ⟨.err (.mkdirFailed modsDir), fs, [.remoteList, .mkdirMods]⟩) := by
  constructor
  · cases hmk : env.mkdirModsOk with
    | false =>
      rw [sync_mkdir_fails env fs mods o hdir hne hmk]
      rfl
    | true =>
      obtain ⟨t, ht⟩ := sync_events_prefix env fs mods o hdir hmk hne
      rw [ht]
      rfl
  · intro hmk
    exact sync_mkdir_fails env fs mods o hdir hne hmk

theorem C4_mkdir_after_listing_witness :
    ({ mkdirModsOk := false } : Env).dirErr = none ∧
    ([(⟨"a.jar", 7, none, none⟩ : ServerFile)] ≠ []) ∧
    ((Sync { mkdirModsOk := false } ⟨[], [], false⟩ [⟨"a.jar", 7, none, none⟩]
        (some {})).events.take 2 = [.remoteList, .mkdirMods] ∧
      (({ mkdirModsOk := false } : Env).mkdirModsOk = false →
        Sync { mkdirModsOk := false } ⟨[], [], false⟩ [⟨"a.jar", 7, none, none⟩]
            (some {}) =
          ⟨.err (.mkdirFailed modsDir), ⟨[], [], false⟩, [.remoteList, .mkdirMods]⟩)) :=
  ⟨rfl, by simp, C4_mkdir_after_listing { mkdirModsOk := false } ⟨[], [], false⟩
    [⟨"a.jar", 7, none, none⟩] (some {}) rfl (by simp)⟩

/-- C8 is contradicted by line 209 of the source: with the backup store
uncreatable and one orphan on an otherwise clean run, the
`MkdirAll(backupDir)` failure is silently discarded — the creation was
attempted (the trace holds `mkdirBackup`) but the run's error is the later
rename's link error, and no directory-creation error is ever surfaced to
the caller. -/
theorem C8_backup_mkdir_error_discarded :
    (Sync { mkdirBackupOk := false } ⟨[⟨"old.jar", 50, false⟩], [], false⟩
        [⟨"new.jar", 30, none, none⟩] (some {})).outcome =
      .err (.linkError "rename" (joinPath modsDir "old.jar")
        (joinPath backupDir "old.jar")) ∧
    Event.mkdirBackup ∈ (Sync { mkdirBackupOk := false }
      ⟨[⟨"old.jar", 50, false⟩], [], false⟩
      [⟨"new.jar", 30, none, none⟩] (some {})).events :=
  ⟨by decide, by decide⟩

/-- C7 is false as stated for stream-copy failures: the write primitive
propagates the remote side's own error unwrapped, and that error carries
no destination path (and is no `WriteFailed{path, cause}` value). -/
theorem C7_counterexample :
    (write {} ⟨"a.jar", 7, none, some "connection reset"⟩ "a.jar" {}
        ⟨[], [], false⟩).1 = some (.remote "connection reset") ∧
    GoError.mentionsPath (.remote "connection reset")
      (joinPath modsDir "a.jar") = false :=
  ⟨rfl, rfl⟩

/-- C7 (amended): both primitives return the underlying error unwrapped: a
creation failure is a path error carrying the destination path; a
stream-copy failure is the remote's own error, carrying no path at all;
and every backup failure is the rename's link error carrying the source
path `modsDir/name` and the destination path `backupDir/name` (hence the
artifact name inside them). -/
theorem C7_error_propagation (env : Env) (m : ServerFile) (name : String)
    (o : SyncOptions) (fs : FS) (hstat : m.statErr = none) :
    (joinPath modsDir name ∈ env.createFails →
      (write env m name o fs).1 = some (.pathError "create" (joinPath modsDir name)) ∧
      GoError.mentionsPath (.pathError "create" (joinPath modsDir name))
        (joinPath modsDir name) = true) ∧
    (joinPath modsDir name ∉ env.createFails → ∀ msg, m.writeErr = some msg →
      (write env m name o fs).1 = some (.remote msg) ∧
      ∀ p, GoError.mentionsPath (.remote msg) p = false) ∧
    (∀ e, (backup env name fs).1 = some e →
      e = .linkError "rename" (joinPath modsDir name) (joinPath backupDir name) ∧
      GoError.mentionsPath e (joinPath backupDir name) = true) := by
  have hw : (if o.onWrite then m.statErr else none) = none := by
    rw [hstat]
    exact ite_self none
  refine ⟨fun hc => ?_, fun hc msg hmsg => ?_, fun e he => ?_⟩
  · constructor
    · unfold write
      dsimp only
      rw [hw]
      dsimp only
      rw [if_pos hc]
    · simp [GoError.mentionsPath]
  · constructor
    · unfold write
      dsimp only
      rw [hw]
      dsimp only
      rw [if_neg hc, hmsg]
    · intro p
      rfl
  · have hlink : e = .linkError "rename" (joinPath modsDir name)
        (joinPath backupDir name) := by
      unfold backup at he
      dsimp only at he
      by_cases h1 : joinPath modsDir name ∈ env.renameFails
      · rw [if_pos h1] at he
        injection he with he2
        exact he2.symm
      · rw [if_neg h1] at he
        by_cases h2 : (!fs.backupDirExists) = true
        · rw [if_pos h2] at he
          injection he with he2
          exact he2.symm
        · rw [if_neg h2] at he
          rcases Option.eq_none_or_eq_some (findFile fs.mods name) with hf | ⟨e2, hf⟩
          · rw [hf] at he
            injection he with he2
            exact he2.symm
          · rw [hf] at he
            exact Option.noConfusion he
    refine ⟨hlink, ?_⟩
    rw [hlink]
    simp [GoError.mentionsPath]

theorem C7_error_propagation_witness :
    ((⟨"a.jar", 7, none, some "boom"⟩ : ServerFile).statErr = none) ∧
    (joinPath modsDir "a.jar" ∈
        ({ createFails := [joinPath modsDir "a.jar"] } : Env).createFails →
      (write { createFails := [joinPath modsDir "a.jar"] }
          ⟨"a.jar", 7, none, some "boom"⟩ "a.jar" {} ⟨[], [], false⟩).1 =
        some (.pathError "create" (joinPath modsDir "a.jar")) ∧
      GoError.mentionsPath (.pathError "create" (joinPath modsDir "a.jar"))
        (joinPath modsDir "a.jar") = true) :=
  ⟨rfl, (C7_error_propagation { createFails := [joinPath modsDir "a.jar"] }
    ⟨"a.jar", 7, none, some "boom"⟩ "a.jar" {} ⟨[], [], false⟩ rfl).1⟩

/-- C9: every dispatched per-artifact task invokes the deferred Close
exactly once, on every path (skip, write, replace and each failure alike):
for each name, the number of close events in the write phase's trace
equals the number of dispatched artifacts bearing that name. -/
theorem C9_close_exactly_once (env : Env) (o : SyncOptions) (mods : List ServerFile) :
    ∀ fs inv n, (runTasks env o mods fs inv).events.count (Event.closeArt n) =
      (mods.map ServerFile.name).count n := by
  induction mods with
  | nil =>
    intro fs inv n
    rfl
  | cons m rest ih =>
    intro fs inv n
    show ((syncTask env o m fs inv).events ++
      (runTasks env o rest (syncTask env o m fs inv).fs
        (syncTask env o m fs inv).inv).events).count (Event.closeArt n) = _
    rw [List.count_append, syncTask_count_close, ih]
    show _ = (m.name :: rest.map ServerFile.name).count n
    by_cases hmn : m.name = n
    · simp [hmn, List.count_cons, Nat.add_comm]
    · have hnm : ¬ (n = m.name) := fun hh => hmn hh.symm
      simp [hmn, hnm, List.count_cons]

/-- C6: when force and keepExisting are both set (and the run reaches the
task phase), `Sync` performs no local-state comparison at all: the local
directory is never scanned, no backup of any kind occurs (no
backup-primitive invocation and no backup-store creation), and every
remote artifact whose Stat succeeds has the write primitive invoked for it
unconditionally. -/
theorem C6_force_keep_unconditional (env : Env) (fs : FS) (mods : List ServerFile)
    (o : SyncOptions) (hdir : env.dirErr = none) (hmk : env.mkdirModsOk = true)
    (hne : mods ≠ []) (hk : o.keepExisting = true) (hf : o.force = true) :
    Event.readDir ∉ (Sync env fs mods (some o)).events ∧
    Event.mkdirBackup ∉ (Sync env fs mods (some o)).events ∧
    (∀ n, Event.backupArt n ∉ (Sync env fs mods (some o)).events) ∧
    (∀ m ∈ mods, m.statErr = none →
      Event.writeArt m.name ∈ (Sync env fs mods (some o)).events) := by
  have hkf : (o.keepExisting && o.force) = true := by
    rw [hk, hf]
    rfl
  rw [sync_run_skip_scan env fs mods o hdir hmk hne hkf,
    afterScan_events_keep env fs [.remoteList, .mkdirMods] mods o [] hk]
  have hall := runTasks_events_all env o mods fs []
  obtain ⟨hnb, hwr⟩ := runTasks_force_events_props env o mods hf fs []
  refine ⟨?_, ?_, ?_, ?_⟩
  · intro h
    rcases List.mem_append.mp h with h | h
    · simp at h
    · exact absurd h (not_mem_of_all_taskEvent _ hall _ rfl)
  · intro h
    rcases List.mem_append.mp h with h | h
    · simp at h
    · exact absurd h (not_mem_of_all_taskEvent _ hall _ rfl)
  · intro n h
    rcases List.mem_append.mp h with h | h
    · simp at h
    · exact absurd h (hnb n)
  · intro m hm hs
    exact List.mem_append.mpr (Or.inr (hwr m hm hs))

theorem C6_force_keep_unconditional_witness :
    ({} : Env).dirErr = none ∧ ({} : Env).mkdirModsOk = true ∧
    ([(⟨"a.jar", 7, none, none⟩ : ServerFile)] ≠ []) ∧
    ({ keepExisting := true, force := true } : SyncOptions).keepExisting = true ∧
    ({ keepExisting := true, force := true } : SyncOptions).force = true ∧
    Event.readDir ∉ (Sync {} ⟨[⟨"b.jar", 9, false⟩], [], false⟩
      [⟨"a.jar", 7, none, none⟩]
      (some { keepExisting := true, force := true })).events :=
  ⟨rfl, rfl, by simp, rfl, rfl,
    (C6_force_keep_unconditional {} ⟨[⟨"b.jar", 9, false⟩], [], false⟩
      [⟨"a.jar", 7, none, none⟩] { keepExisting := true, force := true }
      rfl rfl (by simp) rfl rfl).1⟩

/-- C1: each per-artifact task realizes the spec's decision procedure (for
artifacts whose Stat succeeds): Overwrite and WriteNew invoke only the
write primitive; ReplaceWithBackup invokes the backup primitive first and
the write primitive only after the backup succeeded; Skip performs no
write and no backup and leaves the filesystem untouched; and a successful
write places the artifact's declared size at the destination. -/
theorem C1_decision_table (env : Env) (o : SyncOptions) (m : ServerFile) (fs : FS)
    (inv : List (String × Int)) (hstat : m.statErr = none) :
    (decision o.force inv m.name m.size = .overwrite →
      (syncTask env o m fs inv).events =
        [.statArt m.name, .writeArt m.name, .closeArt m.name]) ∧
    (decision o.force inv m.name m.size = .writeNew →
      (syncTask env o m fs inv).events =
        [.statArt m.name, .writeArt m.name, .closeArt m.name]) ∧
    (decision o.force inv m.name m.size = .replaceWithBackup →
      (syncTask env o m fs inv).events =
        ([.statArt m.name, .backupArt m.name] ++
          (if (backup env m.name fs).1 = none then [.writeArt m.name] else [])) ++
          [.closeArt m.name]) ∧
    (decision o.force inv m.name m.size = .skip →
      (syncTask env o m fs inv).events = [.statArt m.name, .closeArt m.name] ∧
      (syncTask env o m fs inv).fs = fs) ∧
    ((decision o.force inv m.name m.size = .overwrite ∨
        decision o.force inv m.name m.size = .writeNew) →
      (write env m m.name o fs).1 = none →
      findFile (syncTask env o m fs inv).fs.mods m.name =
        some ⟨m.name, m.size, false⟩) := by
  unfold decision
  by_cases hf : o.force = true
  · rw [if_pos hf]
    obtain ⟨hfs, hev⟩ := taskBody_write_branch env o m fs inv hstat (Or.inl hf)
    have hev2 : (syncTask env o m fs inv).events =
        [.statArt m.name, .writeArt m.name, .closeArt m.name] := by
      show (taskBody env o m fs inv).events ++ [Event.closeArt m.name] = _
      rw [hev]
      rfl
    refine ⟨fun _ => hev2, fun hcon => Decision.noConfusion hcon,
      fun hcon => Decision.noConfusion hcon, fun hcon => Decision.noConfusion hcon,
      fun _ hwok => ?_⟩
    show findFile (taskBody env o m fs inv).fs.mods m.name = _
    rw [hfs]
    exact write_ok_mods env m m.name o fs hwok
  · rw [if_neg hf]
    have hfb : o.force = false := by
      cases hof : o.force
      · rfl
      · exact absurd hof hf
    cases hl : lookupSize inv m.name with
    | none =>
      obtain ⟨hfs, hev⟩ := taskBody_write_branch env o m fs inv hstat (Or.inr ⟨hfb, hl⟩)
      have hev2 : (syncTask env o m fs inv).events =
          [.statArt m.name, .writeArt m.name, .closeArt m.name] := by
        show (taskBody env o m fs inv).events ++ [Event.closeArt m.name] = _
        rw [hev]
        rfl
      refine ⟨fun hcon => Decision.noConfusion hcon, fun _ => hev2,
        fun hcon => Decision.noConfusion hcon, fun hcon => Decision.noConfusion hcon,
        fun _ hwok => ?_⟩
      show findFile (taskBody env o m fs inv).fs.mods m.name = _
      rw [hfs]
      exact write_ok_mods env m m.name o fs hwok
    | some size =>
      dsimp only
      by_cases hsz : size ≠ m.size
      · rw [if_pos hsz]
        have hev := taskBody_replace_branch env o m fs inv size hstat hfb hl hsz
        refine ⟨fun hcon => Decision.noConfusion hcon,
          fun hcon => Decision.noConfusion hcon, fun _ => ?_,
          fun hcon => Decision.noConfusion hcon,
          fun hd _ => hd.elim (fun hcon => Decision.noConfusion hcon)
            (fun hcon => Decision.noConfusion hcon)⟩
        show (taskBody env o m fs inv).events ++ [Event.closeArt m.name] = _
        rw [hev]
      · rw [if_neg hsz]
        obtain ⟨hev, hfs⟩ := taskBody_skip_branch env o m fs inv size hstat hfb hl hsz
        refine ⟨fun hcon => Decision.noConfusion hcon,
          fun hcon => Decision.noConfusion hcon,
          fun hcon => Decision.noConfusion hcon, fun _ => ⟨?_, hfs⟩,
          fun hd _ => hd.elim (fun hcon => Decision.noConfusion hcon)
            (fun hcon => Decision.noConfusion hcon)⟩
        show (taskBody env o m fs inv).events ++ [Event.closeArt m.name] = _
        rw [hev]
        rfl

theorem C1_decision_table_witness :
    ((⟨"a.jar", 100, none, none⟩ : ServerFile).statErr = none) ∧
    (decision false [("a.jar", 100)] "a.jar" 100 = .skip →
      (syncTask {} {} ⟨"a.jar", 100, none, none⟩
        ⟨[⟨"a.jar", 100, false⟩], [], false⟩ [("a.jar", 100)]).events =
          [.statArt "a.jar", .closeArt "a.jar"] ∧
      (syncTask {} {} ⟨"a.jar", 100, none, none⟩
        ⟨[⟨"a.jar", 100, false⟩], [], false⟩ [("a.jar", 100)]).fs =
          ⟨[⟨"a.jar", 100, false⟩], [], false⟩) :=
  ⟨rfl, (C1_decision_table {} {} ⟨"a.jar", 100, none, none⟩
    ⟨[⟨"a.jar", 100, false⟩], [], false⟩ [("a.jar", 100)] rfl).2.2.2.1⟩

/-- C3: in either phase, the first failing task result decides the run.
Write phase: if its result list contains an error, `Sync` returns exactly
the first one — every result before it is a success and results after it
cannot change the verdict (they are discarded) — the final filesystem is
the write phase's own, and the backup phase is never started (no
backup-store creation appears in the trace).  Backup phase: if the write
phase succeeded and the backup phase's result list contains an error,
`Sync` returns exactly the first backup error, with the same
first-error/discard structure, and its final filesystem is the backup
phase's. -/
theorem C3_first_error_aborts (env : Env) (fs : FS) (mods : List ServerFile)
    (o : SyncOptions) (hdir : env.dirErr = none) (hmk : env.mkdirModsOk = true)
    (hrd : env.readDirOk = true) (hne : mods ≠ []) :
    (∀ e, firstError (writePhase env fs mods o).results = some e →
      (Sync env fs mods (some o)).outcome = .err e ∧
      (Sync env fs mods (some o)).fs = (writePhase env fs mods o).fs ∧
      Event.mkdirBackup ∉ (Sync env fs mods (some o)).events ∧
      ∃ pre post, (writePhase env fs mods o).results = pre ++ some e :: post ∧
        (∀ x ∈ pre, x = none) ∧
        (∀ post2, firstError (pre ++ some e :: post2) = some e)) ∧
    (∀ e, firstError (writePhase env fs mods o).results = none →
      o.keepExisting = false → (writePhase env fs mods o).inv ≠ [] →
      firstError (backupPhase env fs mods o).results = some e →
      (Sync env fs mods (some o)).outcome = .err e ∧
      (Sync env fs mods (some o)).fs = (backupPhase env fs mods o).fs ∧
      ∃ pre post, (backupPhase env fs mods o).results = pre ++ some e :: post ∧
        (∀ x ∈ pre, x = none) ∧
        (∀ post2, firstError (pre ++ some e :: post2) = some e)) := by
  have hrun := sync_run env fs mods o hdir hmk hrd hne
  constructor
  · intro e herr
    unfold writePhase at herr ⊢
    by_cases hkf : (!(o.keepExisting && o.force)) = true
    · rw [if_pos hkf] at hrun herr ⊢
      rw [hrun, afterScan_err env fs _ mods o _ e herr]
      refine ⟨rfl, rfl, ?_, firstError_spec _ e herr⟩
      intro h
      rcases List.mem_append.mp h with h | h
      · simp at h
      · exact absurd h
          (not_mem_of_all_taskEvent _ (runTasks_events_all env o mods fs _) _ rfl)
    · rw [if_neg hkf] at hrun herr ⊢
      rw [hrun, afterScan_err env fs _ mods o _ e herr]
      refine ⟨rfl, rfl, ?_, firstError_spec _ e herr⟩
      intro h
      rcases List.mem_append.mp h with h | h
      · simp at h
      · exact absurd h
          (not_mem_of_all_taskEvent _ (runTasks_events_all env o mods fs _) _ rfl)
  · intro e hfe hk hinvne hberr
    have hspec := firstError_spec _ e hberr
    have hkf : (!(o.keepExisting && o.force)) = true := by
      rw [hk]
      rfl
    rw [if_pos hkf] at hrun
    have hwp : writePhase env fs mods o =
        runTasks env o mods fs (scanInventory fs.mods) := by
      unfold writePhase
      rw [if_pos hkf]
    have hbp : backupPhase env fs mods o =
        runBackups env ((runTasks env o mods fs (scanInventory fs.mods)).inv.map
          Prod.fst)
          (if env.mkdirBackupOk then
            { (runTasks env o mods fs (scanInventory fs.mods)).fs with
              backupDirExists := true }
          else (runTasks env o mods fs (scanInventory fs.mods)).fs) := by
      unfold backupPhase
      rw [hwp]
    rw [hwp] at hfe hinvne
    have hlen : (runTasks env o mods fs (scanInventory fs.mods)).inv.length ≠ 0 :=
      fun h0 => hinvne (List.length_eq_zero.mp h0)
    have hcond : (!o.keepExisting &&
        decide ((runTasks env o mods fs (scanInventory fs.mods)).inv.length ≠ 0)) =
          true := by
      rw [hk, decide_eq_true hlen]
      rfl
    rw [hbp] at hberr
    obtain ⟨hout, hfs⟩ := afterScan_backup_err env fs
      [.remoteList, .mkdirMods, .readDir] mods o (scanInventory fs.mods) e hfe
      hcond hberr
    rw [hrun]
    exact ⟨hout, by rw [hfs, hbp], hspec⟩

theorem C3_first_error_aborts_witness :
    (({ renameFails := [joinPath modsDir "old.jar"] } : Env).dirErr = none ∧
      ({ renameFails := [joinPath modsDir "old.jar"] } : Env).mkdirModsOk = true ∧
      ({ renameFails := [joinPath modsDir "old.jar"] } : Env).readDirOk = true ∧
      ([(⟨"new.jar", 30, none, none⟩ : ServerFile)] ≠ []) ∧
      firstError (writePhase { renameFails := [joinPath modsDir "old.jar"] }
        ⟨[⟨"old.jar", 50, false⟩], [], false⟩
        [⟨"new.jar", 30, none, none⟩] {}).results = none ∧
      ({} : SyncOptions).keepExisting = false ∧
      (writePhase { renameFails := [joinPath modsDir "old.jar"] }
        ⟨[⟨"old.jar", 50, false⟩], [], false⟩
        [⟨"new.jar", 30, none, none⟩] {}).inv ≠ [] ∧
      firstError (backupPhase { renameFails := [joinPath modsDir "old.jar"] }
        ⟨[⟨"old.jar", 50, false⟩], [], false⟩
        [⟨"new.jar", 30, none, none⟩] {}).results =
        some (.linkError "rename" (joinPath modsDir "old.jar")
          (joinPath backupDir "old.jar"))) ∧
    (Sync { renameFails := [joinPath modsDir "old.jar"] }
      ⟨[⟨"old.jar", 50, false⟩], [], false⟩
      [⟨"new.jar", 30, none, none⟩] (some {})).outcome =
      .err (.linkError "rename" (joinPath modsDir "old.jar")
        (joinPath backupDir "old.jar")) :=
  ⟨⟨rfl, rfl, rfl, by simp, by decide, rfl, by decide, by decide⟩,
    ((C3_first_error_aborts { renameFails := [joinPath modsDir "old.jar"] }
      ⟨[⟨"old.jar", 50, false⟩], [], false⟩ [⟨"new.jar", 30, none, none⟩] {}
      rfl rfl rfl (by simp)).2
      (.linkError "rename" (joinPath modsDir "old.jar") (joinPath backupDir "old.jar"))
      (by decide) rfl (by decide) (by decide)).1⟩

/-- C2: on an error-free run over a local directory with duplicate-free
names: when keepExisting is unset, the inventory left after the write
phase is exactly the scanned local artifacts whose name matches no remote
artifact (the orphans), and every orphan ends up in the backup directory
with its original size and out of the mods directory; when keepExisting is
set, the backup store is never created and every non-remote name is left
untouched in both directories. -/
theorem C2_orphan_invariant (env : Env) (fs : FS) (mods : List ServerFile)
    (o : SyncOptions) (hnodup : (fs.mods.map FileEntry.name).Nodup)
    (hok : (Sync env fs mods (some o)).outcome = .ok) :
    (o.keepExisting = false →
      (∀ x, x ∈ (writePhase env fs mods o).inv ↔
        x ∈ scanInventory fs.mods ∧ x.1 ∉ mods.map ServerFile.name) ∧
      (∀ n s, (n, s) ∈ scanInventory fs.mods → n ∉ mods.map ServerFile.name →
        findFile (Sync env fs mods (some o)).fs.mods n = none ∧
        findFile (Sync env fs mods (some o)).fs.backup n = some ⟨n, s, false⟩)) ∧
    (o.keepExisting = true →
      Event.mkdirBackup ∉ (Sync env fs mods (some o)).events ∧
      (∀ n, n ∉ mods.map ServerFile.name →
        findFile (Sync env fs mods (some o)).fs.mods n = findFile fs.mods n ∧
        findFile (Sync env fs mods (some o)).fs.backup n = findFile fs.backup n)) := by
  have hdir : env.dirErr = none := by
    rcases Option.eq_none_or_eq_some env.dirErr with h | ⟨e, h⟩
    · exact h
    · unfold Sync at hok
      rw [h] at hok
      exact Outcome.noConfusion hok
  have hne : mods ≠ [] := by
    intro hnil
    subst hnil
    unfold Sync at hok
    rw [hdir] at hok
    exact Outcome.noConfusion hok
  have hmk : env.mkdirModsOk = true := by
    cases h : env.mkdirModsOk
    · rw [sync_mkdir_fails env fs mods (some o) hdir hne h] at hok
      exact Outcome.noConfusion hok
    · rfl
  refine ⟨fun hk => ?_, fun hk => ?_⟩
  · -- keepExisting = false
    have hkf : (!(o.keepExisting && o.force)) = true := by
      rw [hk]
      rfl
    have hrd : env.readDirOk = true := by
      cases h : env.readDirOk
      · rw [sync_readdir_fails env fs mods o hdir hmk hne (by rw [hk]; rfl) h] at hok
        exact Outcome.noConfusion hok
      · rfl
    have hrun := sync_run env fs mods o hdir hmk hrd hne
    rw [if_pos hkf] at hrun
    have hwp : writePhase env fs mods o =
        runTasks env o mods fs (scanInventory fs.mods) := by
      unfold writePhase
      rw [if_pos hkf]
    rw [hrun] at hok
    have hall : ∀ r ∈ (runTasks env o mods fs (scanInventory fs.mods)).results,
        r = none := afterScan_ok_results env fs _ mods o _ hok
    have hfe : firstError (runTasks env o mods fs (scanInventory fs.mods)).results =
        none := (firstError_eq_none _).mpr hall
    have hinv_iff := runTasks_inv_mem env o mods hk fs (scanInventory fs.mods) hall
    refine ⟨fun x => by rw [hwp]; exact hinv_iff x, fun n s hscan hnrem => ?_⟩
    have hxmem : (n, s) ∈ (runTasks env o mods fs (scanInventory fs.mods)).inv :=
      (hinv_iff (n, s)).mpr ⟨hscan, hnrem⟩
    have hlen : (runTasks env o mods fs (scanInventory fs.mods)).inv.length ≠ 0 := by
      intro h0
      rw [List.length_eq_zero] at h0
      rw [h0] at hxmem
      exact absurd hxmem (List.not_mem_nil _)
    have hcond : (!o.keepExisting &&
        decide ((runTasks env o mods fs (scanInventory fs.mods)).inv.length ≠ 0)) =
          true := by
      rw [hk, decide_eq_true hlen]
      rfl
    obtain ⟨hballs, hbfs⟩ := afterScan_ok_fs_backup env fs
      [.remoteList, .mkdirMods, .readDir] mods o (scanInventory fs.mods) hfe hcond hok
    have hffs : findFile fs.mods n = some ⟨n, s, false⟩ :=
      scanInventory_findFile fs.mods hnodup n s hscan
    have hpres := runTasks_preserves env o mods fs (scanInventory fs.mods) n hall hnrem
    have hfs2mods : findFile (if env.mkdirBackupOk then
        { (runTasks env o mods fs (scanInventory fs.mods)).fs with
          backupDirExists := true }
      else (runTasks env o mods fs (scanInventory fs.mods)).fs).mods n =
        findFile (runTasks env o mods fs (scanInventory fs.mods)).fs.mods n := by
      split
      · rfl
      · rfl
    have hmoves := runBackups_moves env
      ((runTasks env o mods fs (scanInventory fs.mods)).inv.map Prod.fst)
      (if env.mkdirBackupOk then
        { (runTasks env o mods fs (scanInventory fs.mods)).fs with
          backupDirExists := true }
      else (runTasks env o mods fs (scanInventory fs.mods)).fs) n hballs
      (List.mem_map_of_mem Prod.fst hxmem)
    rw [hrun, hbfs]
    refine ⟨hmoves.1, ?_⟩
    apply hmoves.2 ⟨n, s, false⟩
    rw [hfs2mods, hpres.1]
    exact hffs
  · -- keepExisting = true
    by_cases hkf : (o.keepExisting && o.force) = true
    · have hrun := sync_run_skip_scan env fs mods o hdir hmk hne hkf
      rw [hrun] at hok ⊢
      have hall := afterScan_ok_results env fs _ mods o _ hok
      have hfe := (firstError_eq_none _).mpr hall
      have hcond : (!o.keepExisting &&
          decide ((runTasks env o mods fs []).inv.length ≠ 0)) = false := by
        rw [hk]
        rfl
      have hfseq := afterScan_ok_fs_skip env fs [.remoteList, .mkdirMods] mods o []
        hfe hcond
      constructor
      · rw [afterScan_events_keep env fs _ mods o _ hk]
        intro h
        rcases List.mem_append.mp h with h | h
        · simp at h
        · exact absurd h
            (not_mem_of_all_taskEvent _ (runTasks_events_all env o mods fs _) _ rfl)
      · intro n hnrem
        have hpres := runTasks_preserves env o mods fs [] n hall hnrem
        rw [hfseq]
        exact ⟨hpres.1, hpres.2.1⟩
    · have hkf2 : (!(o.keepExisting && o.force)) = true := by
        cases h : (o.keepExisting && o.force)
        · rfl
        · exact absurd h hkf
      have hkff : (o.keepExisting && o.force) = false := by
        cases h : (o.keepExisting && o.force)
        · rfl
        · exact absurd h hkf
      have hrd : env.readDirOk = true := by
        cases h : env.readDirOk
        · rw [sync_readdir_fails env fs mods o hdir hmk hne hkff h] at hok
          exact Outcome.noConfusion hok
        · rfl
      have hrun := sync_run env fs mods o hdir hmk hrd hne
      rw [if_pos hkf2] at hrun
      rw [hrun] at hok ⊢
      have hall := afterScan_ok_results env fs _ mods o _ hok
      have hfe := (firstError_eq_none _).mpr hall
      have hcond : (!o.keepExisting &&
          decide ((runTasks env o mods fs (scanInventory fs.mods)).inv.length ≠ 0)) =
            false := by
        rw [hk]
        rfl
      have hfseq := afterScan_ok_fs_skip env fs [.remoteList, .mkdirMods, .readDir]
        mods o (scanInventory fs.mods) hfe hcond
      constructor
      · rw [afterScan_events_keep env fs _ mods o _ hk]
        intro h
        rcases List.mem_append.mp h with h | h
        · simp at h
        · exact absurd h
            (not_mem_of_all_taskEvent _ (runTasks_events_all env o mods fs _) _ rfl)
      · intro n hnrem
        have hpres := runTasks_preserves env o mods fs (scanInventory fs.mods) n
          hall hnrem
        rw [hfseq]
        exact ⟨hpres.1, hpres.2.1⟩

theorem C2_orphan_invariant_witness :
    (((⟨[⟨"a.jar", 100, false⟩, ⟨"b.jar", 50, false⟩], [], false⟩ : FS).mods.map
        FileEntry.name).Nodup ∧
      (Sync {} ⟨[⟨"a.jar", 100, false⟩, ⟨"b.jar", 50, false⟩], [], false⟩
        [⟨"a.jar", 100, none, none⟩, ⟨"c.jar", 30, none, none⟩]
        (some {})).outcome = .ok) ∧
    (findFile (Sync {} ⟨[⟨"a.jar", 100, false⟩, ⟨"b.jar", 50, false⟩], [], false⟩
        [⟨"a.jar", 100, none, none⟩, ⟨"c.jar", 30, none, none⟩]
        (some {})).fs.mods "b.jar" = none ∧
      findFile (Sync {} ⟨[⟨"a.jar", 100, false⟩, ⟨"b.jar", 50, false⟩], [], false⟩
        [⟨"a.jar", 100, none, none⟩, ⟨"c.jar", 30, none, none⟩]
        (some {})).fs.backup "b.jar" = some ⟨"b.jar", 50, false⟩) :=
  ⟨⟨by decide, by decide⟩,
    ((C2_orphan_invariant {} ⟨[⟨"a.jar", 100, false⟩, ⟨"b.jar", 50, false⟩], [], false⟩
      [⟨"a.jar", 100, none, none⟩, ⟨"c.jar", 30, none, none⟩] {} (by decide)
      (by decide)).1 rfl).2 "b.jar" 50 (by decide) (by decide)⟩

end Fync
